import Mathlib

/-
Shallow embedding of the tweet-pandas library (src/tweet_pandas/cleanse.py and
src/tweet_pandas/tweet.py).

A pandas Series of strings is modelled as a List String; every operation maps a
per-row function over the column, exactly as the pandas .str accessors and
Series.apply do.  Each regular-expression constant of the source is modelled by
an explicit left-to-right scanner with Python re semantics: at every position
the pattern is tried; on success the match is consumed (non-overlapping,
leftmost) and on failure the scanner advances one character.  A "tm" function
receives the reversed prefix of the original string (for lookbehind) and the
remaining characters, and returns the text that findall emits for this match
(the capture group when the pattern has one, otherwise the whole match)
together with the number of characters the match consumes beyond the first.
-/

namespace TweetPandas

/-! ### Character classes of the source patterns -/

/-- The class [a-zA-Z0-9_] used by HANDLE_RULE and HASHTAG_RULE in tweet.py. -/
def isWordCh (c : Char) : Bool := c.isAlpha || c.isDigit || c = '_'

/-- Python regex \s (ASCII part: space, tab, newline, carriage return,
vertical tab, form feed).  Python also matches some non-ASCII spaces; those
never occur in the claims. -/
def isPySpace (c : Char) : Bool :=
  c = ' ' || c = '\t' || c = '\n' || c = '\r' || c = Char.ofNat 11 || c = Char.ofNat 12

/-- The character set matched by one repetition of the body of URLLINK_RULE in
cleanse.py: [a-zA-Z] | [0-9] | [$-_@.&+] | [!*\(\),] | %[0-9a-fA-F][0-9a-fA-F].
[$-_@.&+] is the range 0x24-0x5F (plus @ . & + which already lie inside it),
and the three-character %hh branch is never reached because % itself lies in
that range and the branches are tried in order; hence the repeated group
consumes exactly one character of this set per iteration. -/
def isUrlCh (c : Char) : Bool :=
  c.isAlpha || c.isDigit || ('$' ≤ c && c ≤ '_') || c = '!' || c = '*' ||
    c = '(' || c = ')' || c = ','

/-- The straight single quote character (0x27). -/
def apos : Char := Char.ofNat 39

/-- A straight quote, as in the trimming pattern of strip_quotes. -/
def isQuoteCh (c : Char) : Bool := c = '"' || c = apos

/-- Literal-text initial-segment test. -/
def startsWithL : List Char → List Char → Bool
  | [], _ => true
  | _ :: _, [] => false
  | p :: ps, c :: cs => p = c && startsWithL ps cs

/-! ### Generic scanner (Python re.findall / re.sub semantics) -/

/-- re.findall: scan left to right; rev is the reversed prefix of the original
string (for lookbehind), skip the number of characters of the current match
still to be consumed. -/
def findGo (tm : List Char → List Char → Option (List Char × Nat)) :
    List Char → Nat → List Char → List (List Char)
  | _, _, [] => []
  | rev, skip+1, c :: cs => findGo tm (c :: rev) skip cs
  | rev, 0, c :: cs =>
    match tm rev (c :: cs) with
    | some (e, k) => e :: findGo tm (c :: rev) k cs
    | none => findGo tm (c :: rev) 0 cs

/-- re.sub with replacement tok. -/
def subGo (tm : List Char → List Char → Option (List Char × Nat))
    (tok : List Char) : List Char → Nat → List Char → List Char
  | _, _, [] => []
  | rev, skip+1, c :: cs => subGo tm tok (c :: rev) skip cs
  | rev, 0, c :: cs =>
    match tm rev (c :: cs) with
    | some (_, k) => tok ++ subGo tm tok (c :: rev) k cs
    | none => c :: subGo tm tok (c :: rev) 0 cs

/-! ### Pattern rules -/

/-- HASHTAG_RULE = #([a-zA-Z0-9_]{1,}); findall emits the capture group. -/
def hashtagTm (_rev l : List Char) : Option (List Char × Nat) :=
  match l with
  | c :: rest =>
    if c = '#' then
      let run := rest.takeWhile isWordCh
      if run.isEmpty then none else some (run, run.length)
    else none
  | [] => none

/-- Character comparison, optionally case-insensitive (re.IGNORECASE). -/
def chEq (ci : Bool) (c target : Char) : Bool :=
  c = target || (ci && c.toLower = target.toLower)

/-- The negative lookbehind (?<!RT\s) of MENTION_RULE: true iff the three
characters before the current position are R, T, whitespace. -/
def lookbehindRT (ci : Bool) (rev : List Char) : Bool :=
  match rev with
  | a :: b :: c :: _ => isPySpace a && chEq ci b 'T' && chEq ci c 'R'
  | _ => false

/-- MENTION_RULE = (?<!RT\s)@([a-zA-Z0-9_]{2,15}); findall emits the capture
group, greedily truncated to 15 characters. -/
def mentionTm (ci : Bool) (rev l : List Char) : Option (List Char × Nat) :=
  match l with
  | c :: rest =>
    if c = '@' then
      if lookbehindRT ci rev then none
      else
        let run := rest.takeWhile isWordCh
        if run.length < 2 then none else some (run.take 15, min run.length 15)
    else none
  | [] => none

/-- RETWEET_RULE = (?<=RT\s)?RT\s@([a-zA-Z0-9_]{2,15}):.  The optional
lookbehind is a no-op (an optional zero-width assertion always succeeds), and
the greedy handle must be followed by a colon, which forces the whole word-char
run to have length 2..15. -/
def retweetTm (ci : Bool) (_rev l : List Char) : Option (List Char × Nat) :=
  match l with
  | c1 :: c2 :: c3 :: c4 :: rest =>
    if chEq ci c1 'R' && chEq ci c2 'T' && isPySpace c3 && c4 = '@' then
      let run := rest.takeWhile isWordCh
      if 2 ≤ run.length && run.length ≤ 15 then
        if (rest.drop run.length).head? = some ':' then
          some (run, run.length + 4)
        else none
      else none
    else none
  | _ => none

/-- URLLINK_RULE literal head https:// -/
def httpsL : List Char := ['h', 't', 't', 'p', 's', ':', '/', '/']

/-- URLLINK_RULE literal head http:// -/
def httpL : List Char := ['h', 't', 't', 'p', ':', '/', '/']

/-- URLLINK_RULE = http[s]?://(...)+ where each repetition consumes one isUrlCh
character (see isUrlCh); no capture group, so findall emits the whole match. -/
def urlTm (_rev l : List Char) : Option (List Char × Nat) :=
  if startsWithL httpsL l then
    let body := (l.drop 8).takeWhile isUrlCh
    if body.isEmpty then none else some (httpsL ++ body, 7 + body.length)
  else if startsWithL httpL l then
    let body := (l.drop 7).takeWhile isUrlCh
    if body.isEmpty then none else some (httpL ++ body, 6 + body.length)
  else none

/-- The literal text \xe2\x80\xa6 of ELIPSES_RULE (the raw pattern \\xe2\\xa6
matches backslash-escape text, not the ellipsis code point). -/
def elipLit : List Char :=
  ['\\', 'x', 'e', '2', '\\', 'x', '8', '0', '\\', 'x', 'a', '6']

/-- The mojibake rendering of the ellipsis, third branch of ELIPSES_RULE. -/
def mojiEll : List Char := ['â', '€', '¦']

/-- ELIPSES_RULE = (\.{2,}|\\xe2\\x80\\xa6|â€¦); the branches start with
distinct characters (dot, backslash, â), so alternation order is immaterial. -/
def elipsesTm (_rev l : List Char) : Option (List Char × Nat) :=
  match l with
  | c :: rest =>
    if c = '.' then
      let run := rest.takeWhile (fun d => d = '.')
      if run.isEmpty then none else some (c :: run, run.length)
    else if startsWithL elipLit (c :: rest) then some (elipLit, 11)
    else if startsWithL mojiEll (c :: rest) then some (mojiEll, 2)
    else none
  | [] => none

/-- Number of leading repetitions of the two-character literal text
backslash-n, as matched by the raw pattern (\\n)+ of strip_newline. -/
def nlCount : List Char → Nat
  | a :: b :: rest => if a = '\\' then if b = 'n' then nlCount rest + 1 else 0 else 0
  | _ => 0

/-- strip_newline pattern (\\n)+: one or more literal backslash-n texts
(NOT newline characters). -/
def newlineTm (_rev l : List Char) : Option (List Char × Nat) :=
  let m := nlCount l
  if m = 0 then none else some (l.take (2 * m), 2 * m - 1)

/-- DOUBLE_QUOTES = \\xe2\\x80(\\x9c|\\x9d): literal backslash-escape text. -/
def dqC : List Char := ['\\', 'x', 'e', '2', '\\', 'x', '8', '0', '\\', 'x', '9', 'c']

/-- Second alternative of DOUBLE_QUOTES. -/
def dqD : List Char := ['\\', 'x', 'e', '2', '\\', 'x', '8', '0', '\\', 'x', '9', 'd']

/-- Scanner rule for DOUBLE_QUOTES. -/
def dquoteTm (_rev l : List Char) : Option (List Char × Nat) :=
  if startsWithL dqC l then some (dqC, 11)
  else if startsWithL dqD l then some (dqD, 11)
  else none

/-- SINGLE_QUOTES = \\xe2\\x80(\\x98|\\x99): literal backslash-escape text. -/
def sq8 : List Char := ['\\', 'x', 'e', '2', '\\', 'x', '8', '0', '\\', 'x', '9', '8']

/-- Second alternative of SINGLE_QUOTES. -/
def sq9 : List Char := ['\\', 'x', 'e', '2', '\\', 'x', '8', '0', '\\', 'x', '9', '9']

/-- Scanner rule for SINGLE_QUOTES. -/
def squoteTm (_rev l : List Char) : Option (List Char × Nat) :=
  if startsWithL sq8 l then some (sq8, 11)
  else if startsWithL sq9 l then some (sq9, 11)
  else none

/-- The literal string "+_:!,." that strip_punctuation passes to str.replace
with regex=False: pandas then removes occurrences of this whole six-character
substring, not the individual characters. -/
def punctLit : List Char := ['+', '_', ':', '!', ',', '.']

/-- Literal-substring rule for strip_punctuation (str.replace semantics). -/
def punctTm (_rev l : List Char) : Option (List Char × Nat) :=
  if startsWithL punctLit l then some (punctLit, 5) else none

/-- Whitespace-run rule \s+ of strip_whitespace. -/
def wsTm (_rev l : List Char) : Option (List Char × Nat) :=
  match l with
  | c :: rest =>
    if isPySpace c then
      some (c :: rest.takeWhile isPySpace, (rest.takeWhile isPySpace).length)
    else none
  | [] => none

/-- The four fixed emoji code-point ranges of EMOJI_EMOJI_SET in tweet.py. -/
def emojiSetCh (c : Char) : Bool :=
  (0x1F600 ≤ c.toNat && c.toNat ≤ 0x1F64F) ||
  (0x1F300 ≤ c.toNat && c.toNat ≤ 0x1F5FF) ||
  (0x1F680 ≤ c.toNat && c.toNat ≤ 0x1F6FF) ||
  (0x1F1E0 ≤ c.toNat && c.toNat ≤ 0x1F1FF)

/-- Python regex \w, ASCII part; the get_emojis all_emojis=True class
[^\w\s,. ] negates it.  Python \w also covers non-ASCII letters, which no
claim depends on. -/
def isPyWordCh (c : Char) : Bool := c.isAlphanum || c = '_'

/-- The class [^\w\s,. ] of EMOJI_EMOJI_ALL. -/
def emojiAllCh (c : Char) : Bool :=
  !(isPyWordCh c || isPySpace c || c = ',' || c = '.' || c = ' ')

/-- Single-character emoji rule; all_emojis selects EMOJI_EMOJI_ALL. -/
def emojiTm (all_emojis : Bool) (_rev l : List Char) : Option (List Char × Nat) :=
  match l with
  | c :: _ => if (if all_emojis then emojiAllCh c else emojiSetCh c) then some ([c], 0) else none
  | [] => none

/-! ### Python str.split -/

/-- Python str.split(sep) for a non-empty separator: cur is the reversed
current token, skip the separator characters still to be consumed. -/
def splitSepGo (sep : List Char) : List Char → Nat → List Char → List (List Char)
  | cur, _, [] => [cur.reverse]
  | cur, skip+1, _ :: cs => splitSepGo sep cur skip cs
  | cur, 0, c :: cs =>
    if startsWithL sep (c :: cs) then
      cur.reverse :: splitSepGo sep [] (sep.length - 1) cs
    else splitSepGo sep (c :: cur) 0 cs

/-- Python str.split with explicit non-empty separator. -/
def splitSep (sep l : List Char) : List (List Char) := splitSepGo sep [] 0 l

/-! ### Python collections.Counter (insertion ordered) -/

/-- Increment the count of s, appending a new entry on first occurrence. -/
def bump : List (String × Nat) → String → List (String × Nat)
  | [], s => [(s, 1)]
  | (t, n) :: rest, s => if t = s then (t, n + 1) :: rest else (t, n) :: bump rest s

/-- collections.Counter of a list of strings, as an insertion-ordered
association list. -/
def counter (l : List String) : List (String × Nat) := l.foldl bump []

/-! ### Quote trimming (third pass of strip_quotes) -/

/-- re.sub("(^['\"]|['\"]$)", "", s): remove one leading straight quote if
present, then one trailing straight quote if one remains. -/
def trimQuotes (l : List Char) : List Char :=
  let l1 := match l with
    | [] => ([] : List Char)
    | c :: rest => if isQuoteCh c then rest else c :: rest
  match l1.getLast? with
  | some d => if isQuoteCh d then l1.dropLast else l1
  | none => l1

/-- Drop a leading and a trailing whitespace run, the second replace pass of
strip_whitespace: re.sub("^\s+|\s+$", "", s). -/
def wsTrim (l : List Char) : List Char :=
  ((l.dropWhile isPySpace).reverse.dropWhile isPySpace).reverse

/-! ### CleanseText operations (cleanse.py) -/

namespace CleanseText

/-- strip_mojibake applies the external ftfy.fix_text per row; the repair
function itself is outside this repository, so it is a parameter. -/
def strip_mojibake (fixText : String → String) (col : List String) : List String :=
  col.map fixText

/-- fix_text is a user-friendly alias of strip_mojibake. -/
def fix_text (fixText : String → String) (col : List String) : List String :=
  strip_mojibake fixText col

/-- Row function of get_hyperlinks: findall(URLLINK_RULE). -/
def get_hyperlinks_row (s : String) : List String :=
  (findGo urlTm [] 0 s.data).map String.mk

/-- get_hyperlinks: Series.str.findall(URLLINK_RULE). -/
def get_hyperlinks (col : List String) : List (List String) :=
  col.map get_hyperlinks_row

/-- Row function of strip_elipses. -/
def strip_elipses_row (token : String) (s : String) : String :=
  String.mk (subGo elipsesTm token.data [] 0 s.data)

/-- strip_elipses: replace(ELIPSES_RULE, token, regex=True). -/
def strip_elipses (token : String) (col : List String) : List String :=
  col.map (strip_elipses_row token)

/-- Row function of strip_encoding: encode utf-8 then decode ascii with
errors ignored, i.e. keep exactly the ASCII characters. -/
def strip_encoding_row (s : String) : String :=
  String.mk (s.data.filter (fun c => c.toNat ≤ 127))

/-- strip_encoding. -/
def strip_encoding (col : List String) : List String :=
  col.map strip_encoding_row

/-- Row function of strip_hyperlink. -/
def strip_hyperlink_row (token : String) (s : String) : String :=
  String.mk (subGo urlTm token.data [] 0 s.data)

/-- strip_hyperlink: replace(URLLINK_RULE, token, regex=True). -/
def strip_hyperlink (token : String) (col : List String) : List String :=
  col.map (strip_hyperlink_row token)

/-- Row function of strip_newline: the replacement " " is fixed in the source
(strip_newline takes no token parameter). -/
def strip_newline_row (s : String) : String :=
  String.mk (subGo newlineTm [' '] [] 0 s.data)

/-- strip_newline: replace(r"(\\n)+", " ", regex=True). -/
def strip_newline (col : List String) : List String :=
  col.map strip_newline_row

/-- Row function of strip_punctuation: str.replace of the literal substring
"+_:!,." (regex=False). -/
def strip_punctuation_row (s : String) : String :=
  String.mk (subGo punctTm [] [] 0 s.data)

/-- strip_punctuation. -/
def strip_punctuation (col : List String) : List String :=
  col.map strip_punctuation_row

/-- Row function of strip_quotes: DOUBLE_QUOTES -> '"', SINGLE_QUOTES -> "'",
then trim one leading/trailing straight quote. -/
def strip_quotes_row (s : String) : String :=
  String.mk (trimQuotes (subGo squoteTm [apos] [] 0 (subGo dquoteTm ['"'] [] 0 s.data)))

/-- strip_quotes. -/
def strip_quotes (col : List String) : List String :=
  col.map strip_quotes_row

/-- Row function of strip_whitespace. -/
def strip_whitespace_row (token : String) (s : String) : String :=
  String.mk (wsTrim (subGo wsTm token.data [] 0 s.data))

/-- strip_whitespace: collapse \s+ to token, then trim ^\s+|\s+$. -/
def strip_whitespace (token : String) (col : List String) : List String :=
  col.map (strip_whitespace_row token)

end CleanseText

/-! ### TweetParser operations (tweet.py) -/

namespace TweetParser

/-- Row function of count_elements: len(x.split(sep) if x != "" else ""). -/
def count_elements_row (sep x : String) : Nat :=
  if x = "" then 0 else (splitSep sep.data x.data).length

/-- count_elements. -/
def count_elements (sep : String) (col : List String) : List Nat :=
  col.map (count_elements_row sep)

/-- Row function of get_emojis (counts=False). -/
def get_emojis_row (all_emojis : Bool) (s : String) : List String :=
  (findGo (emojiTm all_emojis) [] 0 s.data).map String.mk

/-- get_emojis with counts=False. -/
def get_emojis (all_emojis : Bool) (col : List String) : List (List String) :=
  col.map (get_emojis_row all_emojis)

/-- get_emojis with counts=True: per-row Counter of the matches. -/
def get_emojis_counts (all_emojis : Bool) (col : List String) : List (List (String × Nat)) :=
  col.map (fun s => counter (get_emojis_row all_emojis s))

/-- Row function of get_hashtags (findall emits the capture group). -/
def get_hashtags_row (s : String) : List String :=
  (findGo hashtagTm [] 0 s.data).map String.mk

/-- get_hashtags with the default sep="" (list of matches per row). -/
def get_hashtags (col : List String) : List (List String) :=
  col.map get_hashtags_row

/-- get_hashtags with a non-empty sep: matches joined per row. -/
def get_hashtags_joined (sep : String) (col : List String) : List String :=
  col.map (fun s => String.intercalate sep (get_hashtags_row s))

/-- Row function of get_mentions (MENTION_RULE, compiled without flags). -/
def get_mentions_row (s : String) : List String :=
  (findGo (mentionTm false) [] 0 s.data).map String.mk

/-- get_mentions with the default sep="". -/
def get_mentions (col : List String) : List (List String) :=
  col.map get_mentions_row

/-- get_mentions with a non-empty sep: matches joined per row. -/
def get_mentions_joined (sep : String) (col : List String) : List String :=
  col.map (fun s => String.intercalate sep (get_mentions_row s))

/-- Row function of get_retweets. -/
def get_retweets_row (s : String) : List String :=
  (findGo (retweetTm false) [] 0 s.data).map String.mk

/-- get_retweets: findall(RETWEET_RULE). -/
def get_retweets (col : List String) : List (List String) :=
  col.map get_retweets_row

/-- Row function of has_hashtags.  str.contains(HASHTAG_RULE, case=flag); the
hashtag pattern contains both letter cases, so the flag cannot change it. -/
def has_hashtags_row (_case_sensitive : Bool) (s : String) : Bool :=
  !(findGo hashtagTm [] 0 s.data).isEmpty

/-- has_hashtags. -/
def has_hashtags (case_sensitive : Bool) (col : List String) : List Bool :=
  col.map (has_hashtags_row case_sensitive)

/-- Row function of has_mentions: contains(MENTION_RULE, case=flag), i.e.
IGNORECASE when the flag is false (the default). -/
def has_mentions_row (case_sensitive : Bool) (s : String) : Bool :=
  !(findGo (mentionTm (!case_sensitive)) [] 0 s.data).isEmpty

/-- has_mentions. -/
def has_mentions (case_sensitive : Bool) (col : List String) : List Bool :=
  col.map (has_mentions_row case_sensitive)

/-- Row function of has_retweets. -/
def has_retweets_row (case_sensitive : Bool) (s : String) : Bool :=
  !(findGo (retweetTm (!case_sensitive)) [] 0 s.data).isEmpty

/-- has_retweets. -/
def has_retweets (case_sensitive : Bool) (col : List String) : List Bool :=
  col.map (has_retweets_row case_sensitive)

/-- Row function of strip_hashtags. -/
def strip_hashtags_row (token : String) (s : String) : String :=
  String.mk (subGo hashtagTm token.data [] 0 s.data)

/-- strip_hashtags. -/
def strip_hashtags (token : String) (col : List String) : List String :=
  col.map (strip_hashtags_row token)

/-- Row function of strip_mentions. -/
def strip_mentions_row (token : String) (s : String) : String :=
  String.mk (subGo (mentionTm false) token.data [] 0 s.data)

/-- strip_mentions. -/
def strip_mentions (token : String) (col : List String) : List String :=
  col.map (strip_mentions_row token)

/-- Row function of strip_retweets. -/
def strip_retweets_row (token : String) (s : String) : String :=
  String.mk (subGo (retweetTm false) token.data [] 0 s.data)

/-- strip_retweets. -/
def strip_retweets (token : String) (col : List String) : List String :=
  col.map (strip_retweets_row token)

end TweetParser

/-! ### Reference definition for claim C1 -/

/-- Follows the words of the spec for extractMentions: at every position of the
string whose character is the at-sign and which is not immediately preceded by
the retweet marker (R, T, then a whitespace), the run of 2-15 alphanumeric or
underscore characters after the at-sign is a mention (the run is truncated to
15 characters and positions with fewer than 2 such characters do not match).
rev is the reversed prefix of the string before the current position. -/
def mentionsByPosition (rev : List Char) : List Char → List (List Char)
  | [] => []
  | c :: cs =>
    (if c = '@' ∧ lookbehindRT false rev = false ∧ 2 ≤ (cs.takeWhile isWordCh).length
      then [(cs.takeWhile isWordCh).take 15] else []) ++ mentionsByPosition (c :: rev) cs

/-- The sub scan of URLLINK_RULE with empty replacement, starting state. -/
def sUrl (cs : List Char) : List Char := subGo urlTm [] [] 0 cs

/-- The findall scan of URLLINK_RULE, starting state. -/
def fUrl (cs : List Char) : List (List Char) := findGo urlTm [] 0 cs

end TweetPandas

namespace TweetPandas

/-! ### Basic helper lemmas -/

theorem mk_data (s : String) : String.mk s.data = s := rfl

theorem startsWithL_ex {p l : List Char} (h : startsWithL p l = true) :
    ∃ t, l = p ++ t := by
  induction p generalizing l with
  | nil => exact ⟨l, rfl⟩
  | cons a p ih =>
    cases l with
    | nil => simp [startsWithL] at h
    | cons c cs =>
      simp only [startsWithL, Bool.and_eq_true, decide_eq_true_eq] at h
      obtain ⟨rfl, h2⟩ := h
      obtain ⟨t, rfl⟩ := ih h2
      exact ⟨t, rfl⟩

theorem startsWithL_app (p t : List Char) : startsWithL p (p ++ t) = true := by
  induction p with
  | nil => rfl
  | cons a p ih => simp [startsWithL, ih]

theorem startsWithL_head_ne {p c : Char} {ps cs : List Char} (h : p ≠ c) :
    startsWithL (p :: ps) (c :: cs) = false := by
  simp [startsWithL, h]

theorem dropWhile_cons_false {p : Char → Bool} {l : List Char} {d : Char} {r : List Char}
    (h : l.dropWhile p = d :: r) : p d = false := by
  induction l with
  | nil => simp [List.dropWhile] at h
  | cons c cs ih =>
    rw [List.dropWhile_cons] at h
    split at h
    · exact ih h
    · cases h
      simp_all

theorem takeWhile_ne_nil_head {p : Char → Bool} {l : List Char}
    (h : ¬ l.takeWhile p = []) : ∃ x t, l = x :: t ∧ p x = true := by
  cases l with
  | nil => simp [List.takeWhile] at h
  | cons c cs =>
    rw [List.takeWhile_cons] at h
    split at h
    · exact ⟨c, cs, rfl, by assumption⟩
    · simp at h

theorem drop_takeWhile_length (p : Char → Bool) (l : List Char) :
    l.drop (l.takeWhile p).length = l.dropWhile p := by
  induction l with
  | nil => rfl
  | cons c cs ih =>
    rw [List.takeWhile_cons, List.dropWhile_cons]
    split
    · simpa [List.length_cons, List.drop_succ_cons] using ih
    · rfl

theorem take_all_of_takeWhile {p : Char → Bool} {cs : List Char} {k : Nat}
    (hk : k ≤ (cs.takeWhile p).length) : ∀ d ∈ cs.take k, p d = true := by
  intro d hd
  have h1 : cs.take k = (cs.takeWhile p).take k := by
    conv_lhs => rw [← List.takeWhile_append_dropWhile p cs]
    rw [List.take_append_of_le_length hk]
  rw [h1] at hd
  exact List.mem_takeWhile_imp (List.mem_of_mem_take hd)

/-! ### Generic scanner equations -/

theorem findGo_nil {tm : List Char → List Char → Option (List Char × Nat)}
    {rev : List Char} {skip : Nat} : findGo tm rev skip [] = [] := by
  cases skip <;> rfl

theorem findGo_succ {tm : List Char → List Char → Option (List Char × Nat)}
    {rev : List Char} {n : Nat} {c : Char} {cs : List Char} :
    findGo tm rev (n + 1) (c :: cs) = findGo tm (c :: rev) n cs := rfl

theorem findGo_zero_some {tm : List Char → List Char → Option (List Char × Nat)}
    {rev : List Char} {c : Char} {cs e : List Char} {k : Nat}
    (h : tm rev (c :: cs) = some (e, k)) :
    findGo tm rev 0 (c :: cs) = e :: findGo tm (c :: rev) k cs := by
  rw [findGo, h]

theorem findGo_zero_none {tm : List Char → List Char → Option (List Char × Nat)}
    {rev : List Char} {c : Char} {cs : List Char} (h : tm rev (c :: cs) = none) :
    findGo tm rev 0 (c :: cs) = findGo tm (c :: rev) 0 cs := by
  rw [findGo, h]

theorem subGo_nil {tm : List Char → List Char → Option (List Char × Nat)}
    {tok rev : List Char} {skip : Nat} : subGo tm tok rev skip [] = [] := by
  cases skip <;> rfl

theorem subGo_succ {tm : List Char → List Char → Option (List Char × Nat)}
    {tok rev : List Char} {n : Nat} {c : Char} {cs : List Char} :
    subGo tm tok rev (n + 1) (c :: cs) = subGo tm tok (c :: rev) n cs := rfl

theorem subGo_zero_some {tm : List Char → List Char → Option (List Char × Nat)}
    {tok rev : List Char} {c : Char} {cs e : List Char} {k : Nat}
    (h : tm rev (c :: cs) = some (e, k)) :
    subGo tm tok rev 0 (c :: cs) = tok ++ subGo tm tok (c :: rev) k cs := by
  rw [subGo, h]

theorem subGo_zero_none {tm : List Char → List Char → Option (List Char × Nat)}
    {tok rev : List Char} {c : Char} {cs : List Char} (h : tm rev (c :: cs) = none) :
    subGo tm tok rev 0 (c :: cs) = c :: subGo tm tok (c :: rev) 0 cs := by
  rw [subGo, h]

/-! ### No-match identities -/

theorem subGo_id_of_findGo_nil (tm : List Char → List Char → Option (List Char × Nat))
    (tok : List Char) :
    ∀ (cs rev : List Char), findGo tm rev 0 cs = [] → subGo tm tok rev 0 cs = cs := by
  intro cs
  induction cs with
  | nil => intro rev _; exact subGo_nil
  | cons c cs ih =>
    intro rev h
    cases htm : tm rev (c :: cs) with
    | some ek =>
      obtain ⟨e, k⟩ := ek
      rw [findGo_zero_some htm] at h
      exact absurd h (by simp)
    | none =>
      rw [findGo_zero_none htm] at h
      rw [subGo_zero_none htm, ih _ h]

theorem findGo_nil_of_trigger (tm : List Char → List Char → Option (List Char × Nat))
    (trig : Char → Bool)
    (htm : ∀ rev c l, trig c = false → tm rev (c :: l) = none) :
    ∀ (cs : List Char), cs.all (fun c => !trig c) = true →
      ∀ (rev : List Char) (skip : Nat), findGo tm rev skip cs = [] := by
  intro cs
  induction cs with
  | nil => intro _ rev skip; exact findGo_nil
  | cons c cs ih =>
    intro h rev skip
    simp only [List.all_cons, Bool.and_eq_true, Bool.not_eq_true'] at h
    obtain ⟨h1, h2'⟩ := h
    cases skip with
    | zero =>
      rw [findGo_zero_none (htm rev c cs h1)]
      exact ih h2' (c :: rev) 0
    | succ n =>
      rw [findGo_succ]
      exact ih h2' (c :: rev) n

theorem subGo_id_of_trigger (tm : List Char → List Char → Option (List Char × Nat))
    (trig : Char → Bool)
    (htm : ∀ rev c l, trig c = false → tm rev (c :: l) = none) (tok : List Char)
    (cs rev : List Char) (h : cs.all (fun c => !trig c) = true) :
    subGo tm tok rev 0 cs = cs :=
  subGo_id_of_findGo_nil tm tok cs rev (findGo_nil_of_trigger tm trig htm cs h rev 0)

end TweetPandas

namespace TweetPandas

/-! ### URLLINK_RULE scan: normalization and inversion lemmas -/

theorem urlTm_rev (rev l : List Char) : urlTm rev l = urlTm [] l := rfl

theorem subGo_url_norm (tok : List Char) :
    ∀ (cs rev : List Char) (skip : Nat),
      subGo urlTm tok rev skip cs = subGo urlTm tok [] 0 (cs.drop skip) := by
  intro cs
  induction cs with
  | nil => intro rev skip; rw [List.drop_nil]; exact subGo_nil.trans subGo_nil.symm
  | cons c cs ih =>
    intro rev skip
    cases skip with
    | succ n =>
      rw [subGo_succ, List.drop_succ_cons]
      exact ih (c :: rev) n
    | zero =>
      rw [List.drop_zero]
      cases htm : urlTm [] (c :: cs) with
      | some ek =>
        obtain ⟨e, k⟩ := ek
        have h1 : urlTm rev (c :: cs) = some (e, k) := (urlTm_rev rev _).trans htm
        rw [subGo_zero_some h1, subGo_zero_some htm, ih (c :: rev) k, ih [c] k]
      | none =>
        have h1 : urlTm rev (c :: cs) = none := (urlTm_rev rev _).trans htm
        rw [subGo_zero_none h1, subGo_zero_none htm, ih (c :: rev) 0, ih [c] 0]

theorem findGo_url_norm :
    ∀ (cs rev : List Char) (skip : Nat),
      findGo urlTm rev skip cs = findGo urlTm [] 0 (cs.drop skip) := by
  intro cs
  induction cs with
  | nil => intro rev skip; rw [List.drop_nil]; exact findGo_nil.trans findGo_nil.symm
  | cons c cs ih =>
    intro rev skip
    cases skip with
    | succ n =>
      rw [findGo_succ, List.drop_succ_cons]
      exact ih (c :: rev) n
    | zero =>
      rw [List.drop_zero]
      cases htm : urlTm [] (c :: cs) with
      | some ek =>
        obtain ⟨e, k⟩ := ek
        have h1 : urlTm rev (c :: cs) = some (e, k) := (urlTm_rev rev _).trans htm
        rw [findGo_zero_some h1, findGo_zero_some htm, ih (c :: rev) k, ih [c] k]
      | none =>
        have h1 : urlTm rev (c :: cs) = none := (urlTm_rev rev _).trans htm
        rw [findGo_zero_none h1, findGo_zero_none htm, ih (c :: rev) 0, ih [c] 0]

theorem sUrl_nil : sUrl [] = [] := rfl

theorem sUrl_cons_none {c : Char} {cs : List Char} (h : urlTm [] (c :: cs) = none) :
    sUrl (c :: cs) = c :: sUrl cs := by
  rw [sUrl, subGo_zero_none h, subGo_url_norm, List.drop_zero]
  rfl

theorem sUrl_cons_some {c : Char} {cs e : List Char} {k : Nat}
    (h : urlTm [] (c :: cs) = some (e, k)) : sUrl (c :: cs) = sUrl (cs.drop k) := by
  rw [sUrl, subGo_zero_some h, subGo_url_norm]
  rfl

theorem fUrl_nil : fUrl [] = [] := rfl

theorem fUrl_cons_none {c : Char} {cs : List Char} (h : urlTm [] (c :: cs) = none) :
    fUrl (c :: cs) = fUrl cs := by
  rw [fUrl, findGo_zero_none h, findGo_url_norm, List.drop_zero]
  rfl

theorem urlTm_none_of_head {c : Char} (cs : List Char) (h : ¬ c = 'h') :
    urlTm [] (c :: cs) = none := by
  rw [urlTm]
  rw [show startsWithL httpsL (c :: cs) = false from startsWithL_head_ne (fun hh => h hh.symm)]
  rw [show startsWithL httpL (c :: cs) = false from startsWithL_head_ne (fun hh => h hh.symm)]
  rfl

theorem urlTm_nil : urlTm [] [] = none := rfl

theorem urlTm_some_shape {l e : List Char} {k : Nat} (h : urlTm [] l = some (e, k)) :
    ∃ x t, (l = httpsL ++ x :: t ∨ l = httpL ++ x :: t) ∧ isUrlCh x = true := by
  rw [urlTm] at h
  split at h
  · next hs =>
    obtain ⟨t', rfl⟩ := startsWithL_ex hs
    have hd : (httpsL ++ t').drop 8 = t' := List.drop_left' (by rfl)
    rw [hd] at h
    dsimp only [] at h
    split at h
    · exact absurd h (by simp)
    · next hne =>
      have hne' : ¬ t'.takeWhile isUrlCh = [] := by
        intro hh
        rw [hh] at hne
        exact hne rfl
      obtain ⟨x, t, rfl, hx⟩ := takeWhile_ne_nil_head hne'
      exact ⟨x, t, Or.inl rfl, hx⟩
  · split at h
    · next hs =>
      obtain ⟨t', rfl⟩ := startsWithL_ex hs
      have hd : (httpL ++ t').drop 7 = t' := List.drop_left' (by rfl)
      rw [hd] at h
      dsimp only [] at h
      split at h
      · exact absurd h (by simp)
      · next hne =>
        have hne' : ¬ t'.takeWhile isUrlCh = [] := by
          intro hh
          rw [hh] at hne
          exact hne rfl
        obtain ⟨x, t, rfl, hx⟩ := takeWhile_ne_nil_head hne'
        exact ⟨x, t, Or.inr rfl, hx⟩
    · exact absurd h (by simp)

theorem urlTm_some_https {x : Char} (t : List Char) (hx : isUrlCh x = true) :
    ∃ p, urlTm [] (httpsL ++ x :: t) = some p := by
  rw [urlTm]
  rw [startsWithL_app]
  have hd : (httpsL ++ x :: t).drop 8 = x :: t := List.drop_left' (by rfl)
  rw [if_pos rfl, hd, List.takeWhile_cons, hx]
  simp

theorem urlTm_some_http {x : Char} (t : List Char) (hx : isUrlCh x = true) :
    ∃ p, urlTm [] (httpL ++ x :: t) = some p := by
  rw [urlTm]
  have h1 : startsWithL httpsL (httpL ++ x :: t) = false := by
    show startsWithL httpsL ('h' :: 't' :: 't' :: 'p' :: ':' :: '/' :: '/' :: x :: t) = false
    simp [httpsL, startsWithL]
  rw [h1]
  have hd : (httpL ++ x :: t).drop 7 = x :: t := List.drop_left' (by rfl)
  rw [if_neg (by simp), startsWithL_app, if_pos rfl, hd, List.takeWhile_cons, hx]
  simp

theorem urlTm_after {c : Char} {cs e : List Char} {k : Nat}
    (h : urlTm [] (c :: cs) = some (e, k)) :
    cs.drop k = [] ∨ ∃ d r, cs.drop k = d :: r ∧ isUrlCh d = false := by
  rw [urlTm] at h
  split at h
  · next hs =>
    obtain ⟨t', hl⟩ := startsWithL_ex hs
    have hd : (c :: cs).drop 8 = t' := by rw [hl]; exact List.drop_left' (by rfl)
    rw [hl] at h
    rw [show (httpsL ++ t').drop 8 = t' from List.drop_left' (by rfl)] at h
    dsimp only [] at h
    split at h
    · exact absurd h (by simp)
    · have hk : k = 7 + (t'.takeWhile isUrlCh).length := by
        have := h
        simp only [Option.some.injEq, Prod.mk.injEq] at this
        exact this.2.symm
      have key : cs.drop k = t'.dropWhile isUrlCh := by
        have h8 : cs.drop (7 + (t'.takeWhile isUrlCh).length) =
            (c :: cs).drop (8 + (t'.takeWhile isUrlCh).length) := by
          rw [show 8 + (t'.takeWhile isUrlCh).length =
            (7 + (t'.takeWhile isUrlCh).length) + 1 from by omega]
          rfl
        rw [hk, h8, ← List.drop_drop, hd]
        exact drop_takeWhile_length isUrlCh t'
      rw [key]
      cases hdw : t'.dropWhile isUrlCh with
      | nil => exact Or.inl rfl
      | cons d r => exact Or.inr ⟨d, r, rfl, dropWhile_cons_false hdw⟩
  · split at h
    · next hs =>
      obtain ⟨t', hl⟩ := startsWithL_ex hs
      have hd : (c :: cs).drop 7 = t' := by rw [hl]; exact List.drop_left' (by rfl)
      rw [hl] at h
      rw [show (httpL ++ t').drop 7 = t' from List.drop_left' (by rfl)] at h
      dsimp only [] at h
      split at h
      · exact absurd h (by simp)
      · have hk : k = 6 + (t'.takeWhile isUrlCh).length := by
          have := h
          simp only [Option.some.injEq, Prod.mk.injEq] at this
          exact this.2.symm
        have key : cs.drop k = t'.dropWhile isUrlCh := by
          have h7 : cs.drop (6 + (t'.takeWhile isUrlCh).length) =
              (c :: cs).drop (7 + (t'.takeWhile isUrlCh).length) := by
            rw [show 7 + (t'.takeWhile isUrlCh).length =
              (6 + (t'.takeWhile isUrlCh).length) + 1 from by omega]
            rfl
          rw [hk, h7, ← List.drop_drop, hd]
          exact drop_takeWhile_length isUrlCh t'
        rw [key]
        cases hdw : t'.dropWhile isUrlCh with
        | nil => exact Or.inl rfl
        | cons d r => exact Or.inr ⟨d, r, rfl, dropWhile_cons_false hdw⟩
    · exact absurd h (by simp)

end TweetPandas

namespace TweetPandas

/-! ### stripLinks then extractLinks: no URL match survives or is created -/

theorem sUrl_decomp : ∀ (pre : List Char), pre.all isUrlCh = true →
    ∀ (cs t : List Char), sUrl cs = pre ++ t → ∃ cs2, cs = pre ++ cs2 ∧ sUrl cs2 = t := by
  intro pre
  induction pre with
  | nil => intro _ cs t h; exact ⟨cs, rfl, h⟩
  | cons p pre ih =>
    intro hall cs t h
    simp only [List.all_cons, Bool.and_eq_true] at hall
    obtain ⟨hp, hall⟩ := hall
    cases cs with
    | nil =>
      rw [sUrl_nil] at h
      exact absurd h (by simp)
    | cons c cs1 =>
      cases htm : urlTm [] (c :: cs1) with
      | some ek =>
        obtain ⟨e, k⟩ := ek
        rw [sUrl_cons_some htm] at h
        rcases urlTm_after htm with hnil | ⟨d, r, hd, hdf⟩
        · rw [hnil, sUrl_nil] at h
          exact absurd h (by simp)
        · rw [hd] at h
          by_cases hdh : d = 'h'
          · subst hdh
            exact absurd hdf (by decide)
          · rw [sUrl_cons_none (urlTm_none_of_head r hdh)] at h
            simp only [List.cons_append, List.cons.injEq] at h
            obtain ⟨rfl, _⟩ := h
            simp [hp] at hdf
      | none =>
        rw [sUrl_cons_none htm] at h
        simp only [List.cons_append, List.cons.injEq] at h
        obtain ⟨rfl, h2⟩ := h
        obtain ⟨cs2, rfl, hs⟩ := ih hall cs1 t h2
        exact ⟨cs2, rfl, hs⟩

theorem sUrl_no_match : ∀ (n : Nat) (cs : List Char), cs.length ≤ n →
    ∀ l', l' <:+ sUrl cs → urlTm [] l' = none := by
  intro n
  induction n with
  | zero =>
    intro cs hlen l' hsuf
    have hcs : cs = [] := List.length_eq_zero.mp (Nat.le_zero.mp hlen)
    subst hcs
    rw [sUrl_nil] at hsuf
    have hl : l' = [] := List.suffix_nil.mp hsuf
    subst hl
    exact urlTm_nil
  | succ n ih =>
    intro cs hlen l' hsuf
    cases cs with
    | nil =>
      rw [sUrl_nil] at hsuf
      have hl : l' = [] := List.suffix_nil.mp hsuf
      subst hl
      exact urlTm_nil
    | cons c cs1 =>
      simp only [List.length_cons] at hlen
      have hlen1 : cs1.length ≤ n := by omega
      cases htm : urlTm [] (c :: cs1) with
      | some ek =>
        obtain ⟨e, k⟩ := ek
        rw [sUrl_cons_some htm] at hsuf
        exact ih (cs1.drop k) (by rw [List.length_drop]; omega) l' hsuf
      | none =>
        rw [sUrl_cons_none htm] at hsuf
        rcases List.suffix_cons_iff.mp hsuf with heq | hsuf'
        · subst heq
          cases hx : urlTm [] (c :: sUrl cs1) with
          | none => rfl
          | some p =>
            obtain ⟨e, k⟩ := p
            obtain ⟨x, t, hor, hxu⟩ := urlTm_some_shape hx
            exfalso
            have hallA : (['t', 't', 'p', 's', ':', '/', '/'] : List Char).all isUrlCh = true := by
              decide
            have hallB : (['t', 't', 'p', ':', '/', '/'] : List Char).all isUrlCh = true := by
              decide
            rcases hor with hP | hP
            · have hP' : c :: sUrl cs1 =
                  'h' :: (['t', 't', 'p', 's', ':', '/', '/'] ++ x :: t) := hP
              simp only [List.cons.injEq] at hP'
              obtain ⟨rfl, h2⟩ := hP'
              have h2' : sUrl cs1 = (['t', 't', 'p', 's', ':', '/', '/'] ++ [x]) ++ t := by
                rw [h2]
                simp
              have hall : (['t', 't', 'p', 's', ':', '/', '/'] ++ [x]).all isUrlCh = true := by
                rw [List.all_append, hallA, List.all_cons, hxu, List.all_nil]
                rfl
              obtain ⟨cs2, hcs2, _⟩ := sUrl_decomp _ hall cs1 t h2'
              have hfull : 'h' :: cs1 = httpsL ++ x :: cs2 := by
                rw [hcs2]
                simp [httpsL]
              obtain ⟨p2, hp2⟩ := urlTm_some_https cs2 hxu
              rw [← hfull] at hp2
              rw [htm] at hp2
              exact Option.noConfusion hp2
            · have hP' : c :: sUrl cs1 =
                  'h' :: (['t', 't', 'p', ':', '/', '/'] ++ x :: t) := hP
              simp only [List.cons.injEq] at hP'
              obtain ⟨rfl, h2⟩ := hP'
              have h2' : sUrl cs1 = (['t', 't', 'p', ':', '/', '/'] ++ [x]) ++ t := by
                rw [h2]
                simp
              have hall : (['t', 't', 'p', ':', '/', '/'] ++ [x]).all isUrlCh = true := by
                rw [List.all_append, hallB, List.all_cons, hxu, List.all_nil]
                rfl
              obtain ⟨cs2, hcs2, _⟩ := sUrl_decomp _ hall cs1 t h2'
              have hfull : 'h' :: cs1 = httpL ++ x :: cs2 := by
                rw [hcs2]
                simp [httpL]
              obtain ⟨p2, hp2⟩ := urlTm_some_http cs2 hxu
              rw [← hfull] at hp2
              rw [htm] at hp2
              exact Option.noConfusion hp2
        · exact ih cs1 hlen1 l' hsuf'

theorem fUrl_nil_of_no_match :
    ∀ (l : List Char), (∀ l', l' <:+ l → urlTm [] l' = none) → fUrl l = [] := by
  intro l
  induction l with
  | nil => intro _; exact fUrl_nil
  | cons c cs ih =>
    intro h
    rw [fUrl_cons_none (h _ (List.suffix_refl _))]
    exact ih (fun l' hs => h l' (hs.trans (List.suffix_cons c cs)))

theorem fUrl_sUrl (cs : List Char) : fUrl (sUrl cs) = [] :=
  fUrl_nil_of_no_match _ (fun l' hs => sUrl_no_match cs.length cs (Nat.le_refl _) l' hs)

end TweetPandas

namespace TweetPandas

/-! ### MENTION_RULE scan equals the per-position description -/

theorem mentionTm_some_inv {ci : Bool} {rev l e : List Char} {k : Nat}
    (h : mentionTm ci rev l = some (e, k)) :
    ∃ rest, l = '@' :: rest ∧ lookbehindRT ci rev = false ∧
      2 ≤ (rest.takeWhile isWordCh).length ∧
      e = (rest.takeWhile isWordCh).take 15 ∧
      k = min (rest.takeWhile isWordCh).length 15 := by
  cases l with
  | nil => exact absurd h (by simp [mentionTm])
  | cons c rest =>
    rw [mentionTm] at h
    dsimp only [] at h
    split at h
    · next hc =>
      split at h
      · exact absurd h (by simp)
      · next hlb =>
        split at h
        · exact absurd h (by simp)
        · next hrun =>
          simp only [Option.some.injEq, Prod.mk.injEq] at h
          obtain ⟨he, hk⟩ := h
          subst hc
          exact ⟨rest, rfl, Bool.not_eq_true _ ▸ Bool.of_not_eq_true hlb,
            by omega, he.symm, hk.symm⟩
    · exact absurd h (by simp)

theorem findGo_mentions : ∀ (cs rev : List Char) (skip : Nat),
    (∀ c ∈ cs.take skip, isWordCh c = true) →
    findGo (mentionTm false) rev skip cs = mentionsByPosition rev cs := by
  intro cs
  induction cs with
  | nil => intro rev skip _; rw [mentionsByPosition]; exact findGo_nil
  | cons c cs ih =>
    intro rev skip hw
    cases skip with
    | succ n =>
      have hc : isWordCh c = true :=
        hw c (by rw [List.take_succ_cons]; exact List.mem_cons_self c _)
      rw [findGo_succ, mentionsByPosition]
      have hcond : ¬(c = '@' ∧ lookbehindRT false rev = false ∧
          2 ≤ (cs.takeWhile isWordCh).length) := by
        rintro ⟨rfl, -, -⟩
        exact absurd hc (by decide)
      rw [if_neg hcond, List.nil_append]
      apply ih (c :: rev) n
      intro d hd
      exact hw d (by rw [List.take_succ_cons]; exact List.mem_cons_of_mem c hd)
    | zero =>
      cases htm : mentionTm false rev (c :: cs) with
      | some ek =>
        obtain ⟨e, k⟩ := ek
        rw [findGo_zero_some htm]
        obtain ⟨rest, hl, hlb, hrun, he, hk⟩ := mentionTm_some_inv htm
        injection hl with h1 h2
        subst h1
        subst h2
        rw [mentionsByPosition, if_pos ⟨rfl, hlb, hrun⟩, he, List.singleton_append]
        congr 1
        have hkle : k ≤ (cs.takeWhile isWordCh).length := by
          rw [hk]
          exact min_le_left _ _
        exact ih ('@' :: rev) k (take_all_of_takeWhile hkle)
      | none =>
        rw [findGo_zero_none htm, mentionsByPosition]
        have hcond : ¬(c = '@' ∧ lookbehindRT false rev = false ∧
            2 ≤ (cs.takeWhile isWordCh).length) := by
          rintro ⟨rfl, hlb, hrun⟩
          rw [mentionTm] at htm
          dsimp only [] at htm
          rw [if_pos rfl] at htm
          rw [if_neg (by simp [hlb])] at htm
          rw [if_neg (by omega)] at htm
          exact Option.noConfusion htm
        rw [if_neg hcond, List.nil_append]
        exact ih (c :: rev) 0 (by intro d hd; simp at hd)

end TweetPandas

namespace TweetPandas

/-! ### Per-rule trigger lemmas: the pattern needs its first character -/

theorem newlineTm_trigger : ∀ (rev : List Char) (c : Char) (l : List Char),
    (decide (c = '\\')) = false → newlineTm rev (c :: l) = none := by
  intro rev c l hc
  have hc' : ¬ c = '\\' := of_decide_eq_false hc
  have h0 : nlCount (c :: l) = 0 := by
    cases l with
    | nil => rfl
    | cons b r =>
      rw [nlCount, if_neg hc']
  rw [newlineTm]
  rw [h0]
  rfl

theorem elipsesTm_trigger : ∀ (rev : List Char) (c : Char) (l : List Char),
    (c = '.' || c = '\\' || c = 'â') = false → elipsesTm rev (c :: l) = none := by
  intro rev c l hc
  simp only [Bool.or_eq_false_iff, decide_eq_false_iff_not] at hc
  obtain ⟨⟨h1, h2⟩, h3⟩ := hc
  have hA : ¬ startsWithL elipLit (c :: l) = true := by
    have : startsWithL elipLit (c :: l) = false :=
      startsWithL_head_ne (fun hh => h2 hh.symm)
    rw [this]
    simp
  have hB : ¬ startsWithL mojiEll (c :: l) = true := by
    have : startsWithL mojiEll (c :: l) = false :=
      startsWithL_head_ne (fun hh => h3 hh.symm)
    rw [this]
    simp
  rw [elipsesTm, if_neg h1, if_neg hA, if_neg hB]

end TweetPandas

namespace TweetPandas

/-! ### Claim theorems -/

/-- C1: get_mentions returns, for each row, exactly the handles described by
the mention rule: at every position whose character is the at-sign, not
immediately preceded by the retweet marker (R, T, whitespace), the following
run of 2-15 alphanumeric/underscore characters (truncated at 15); in
particular on the single-row value "RT @alice: great day @bob" the retweet
attribution alice is excluded and the result is [["bob"]]. -/
theorem c1_mentions :
    TweetParser.get_mentions ["RT @alice: great day @bob"] = [["bob"]] ∧
    ∀ col : List String, TweetParser.get_mentions col =
      col.map (fun s => (mentionsByPosition [] s.data).map String.mk) := by
  constructor
  · rfl
  · intro col
    unfold TweetParser.get_mentions TweetParser.get_mentions_row
    apply List.map_congr_left
    intro s _
    rw [findGo_mentions s.data [] 0 (by intro d hd; simp at hd)]

/-- C2: evaluation of strip_punctuation at the failing input: the literal
six-character substring "+_:!,." never occurs in "a+b_c:d!e,f.g", so the row
is returned unchanged (the individual punctuation characters are NOT removed);
only an occurrence of the whole substring is removed. -/
theorem c2_strip_punctuation_eval :
    CleanseText.strip_punctuation ["a+b_c:d!e,f.g"] = ["a+b_c:d!e,f.g"] ∧
    ¬ CleanseText.strip_punctuation ["a+b_c:d!e,f.g"] = ["abcdefg"] ∧
    CleanseText.strip_punctuation ["x+_:!,.y"] = ["xy"] := by
  refine ⟨rfl, by decide, rfl⟩

/-- C3: count_elements with the default separator ";" returns 3 on "a;b;c"
and 0 on the empty string (the source special-cases the empty string). -/
theorem c3_count_elements :
    TweetParser.count_elements ";" ["a;b;c", ""] = [3, 0] := rfl

/-- C4: for every input column, stripping hyperlinks with the default empty
token and then extracting hyperlinks yields the empty list in every row: no
URL-pattern match survives removal or is created by the concatenation of the
remaining pieces. -/
theorem c4_strip_then_extract_links (col : List String) :
    CleanseText.get_hyperlinks (CleanseText.strip_hyperlink "" col) =
      col.map (fun _ => ([] : List String)) := by
  unfold CleanseText.get_hyperlinks CleanseText.strip_hyperlink
  rw [List.map_map]
  apply List.map_congr_left
  intro s _
  show CleanseText.get_hyperlinks_row (CleanseText.strip_hyperlink_row "" s) = []
  unfold CleanseText.get_hyperlinks_row CleanseText.strip_hyperlink_row
  rw [show (String.mk (subGo urlTm ("" : String).data [] 0 s.data)).data = sUrl s.data from rfl]
  rw [show findGo urlTm [] 0 (sUrl s.data) = fUrl (sUrl s.data) from rfl]
  rw [fUrl_sUrl]
  rfl

/-- C5 counterexample: on the row value "a\n\nb" containing two actual newline
characters (U+000A), strip_newline returns the value unchanged, not "a b": the
raw pattern (\\n)+ matches the literal two-character text backslash-n, not the
newline character. -/
theorem c5_newline_cx :
    CleanseText.strip_newline ["a\n\nb"] = ["a\n\nb"] ∧
    ¬ CleanseText.strip_newline ["a\n\nb"] = ["a b"] := by
  refine ⟨rfl, by decide⟩

/-- C5 amended: strip_newline replaces each maximal run of the literal
two-character sequence backslash-n with a single space (the replacement is
fixed in the source; there is no token parameter), and leaves rows without a
backslash, in particular rows with actual newline characters, unchanged; e.g.
the row value with literal text a\n\nb becomes "a b". -/
theorem c5_newline_amended :
    CleanseText.strip_newline [String.mk ['a', '\\', 'n', '\\', 'n', 'b']] = ["a b"] ∧
    ∀ s : String, s.data.all (fun c => !(c = '\\')) = true →
      CleanseText.strip_newline [s] = [s] := by
  constructor
  · rfl
  · intro s h
    unfold CleanseText.strip_newline CleanseText.strip_newline_row
    rw [List.map_cons, List.map_nil]
    rw [subGo_id_of_trigger newlineTm (fun c => decide (c = '\\')) newlineTm_trigger
      [' '] s.data [] h]

/-- Witness for C5: the amended theorem applied at a concrete backslash-free
row. -/
theorem c5_newline_witness : CleanseText.strip_newline ["xy"] = ["xy"] :=
  c5_newline_amended.2 "xy" (by decide)

/-- C6 counterexample: on the row value "a…b" containing the Unicode ellipsis
character U+2026, strip_elipses returns the value unchanged, not "ab": the
rule matches the literal text \xe2\x80\xa6 and the mojibake sequence, never
the ellipsis code point itself. -/
theorem c6_elipses_cx :
    CleanseText.strip_elipses "" ["a…b"] = ["a…b"] ∧
    ¬ CleanseText.strip_elipses "" ["a…b"] = ["ab"] := by
  refine ⟨rfl, by decide⟩

/-- C6 amended: strip_elipses replaces each sequence of two or more dots, each
occurrence of the literal text \xe2\x80\xa6, and each occurrence of the
mojibake sequence U+00E2 U+20AC U+00A6 with the token (default empty), leaves
a single dot and the actual ellipsis character U+2026 alone, and leaves any
row without a dot, backslash, or U+00E2 unchanged. -/
theorem c6_elipses_amended :
    CleanseText.strip_elipses "" ["a..b", "c...d", "x\\xe2\\x80\\xa6y", "pâ€¦q", "a.b"] =
      ["ab", "cd", "xy", "pq", "a.b"] ∧
    ∀ (token s : String), s.data.all (fun c => !(c = '.' || c = '\\' || c = 'â')) = true →
      CleanseText.strip_elipses token [s] = [s] := by
  constructor
  · rfl
  · intro token s h
    unfold CleanseText.strip_elipses CleanseText.strip_elipses_row
    rw [List.map_cons, List.map_nil]
    rw [subGo_id_of_trigger elipsesTm (fun c => (c = '.' || c = '\\' || c = 'â'))
      elipsesTm_trigger token.data s.data [] h]

/-- Witness for C6: the amended theorem applied at a concrete trigger-free
row. -/
theorem c6_elipses_witness : CleanseText.strip_elipses "t" ["xyz"] = ["xyz"] :=
  c6_elipses_amended.2 "t" "xyz" (by decide)

/-- C10: an over-long handle is matched greedily and truncated to its first 15
characters rather than skipped or returned whole. -/
theorem c10_long_handle :
    TweetParser.get_mentions ["@abcdefghijklmnopq"] = [["abcdefghijklmno"]] := rfl

end TweetPandas

namespace TweetPandas

/-- C8: every operation of CleanseText and TweetParser preserves the row count
and is element-wise: the output column has exactly as many rows as the input
and row i of the output is the operation's row function applied to row i of
the input (so no operation reorders, filters, or adds rows).  strip_mojibake
and its alias fix_text apply the external ftfy repair function fx per row. -/
theorem c8_rowwise (col : List String) (i : Nat) (tok sep : String)
    (flag emo : Bool) (fx : String → String) :
    (CleanseText.fix_text fx col).length = col.length ∧
    (CleanseText.fix_text fx col)[i]? = (col[i]?).map fx ∧
    (CleanseText.get_hyperlinks col).length = col.length ∧
    (CleanseText.get_hyperlinks col)[i]? = (col[i]?).map CleanseText.get_hyperlinks_row ∧
    (CleanseText.strip_elipses tok col).length = col.length ∧
    (CleanseText.strip_elipses tok col)[i]? = (col[i]?).map (CleanseText.strip_elipses_row tok) ∧
    (CleanseText.strip_encoding col).length = col.length ∧
    (CleanseText.strip_encoding col)[i]? = (col[i]?).map CleanseText.strip_encoding_row ∧
    (CleanseText.strip_hyperlink tok col).length = col.length ∧
    (CleanseText.strip_hyperlink tok col)[i]? = (col[i]?).map (CleanseText.strip_hyperlink_row tok) ∧
    (CleanseText.strip_mojibake fx col).length = col.length ∧
    (CleanseText.strip_mojibake fx col)[i]? = (col[i]?).map fx ∧
    (CleanseText.strip_newline col).length = col.length ∧
    (CleanseText.strip_newline col)[i]? = (col[i]?).map CleanseText.strip_newline_row ∧
    (CleanseText.strip_punctuation col).length = col.length ∧
    (CleanseText.strip_punctuation col)[i]? = (col[i]?).map CleanseText.strip_punctuation_row ∧
    (CleanseText.strip_quotes col).length = col.length ∧
    (CleanseText.strip_quotes col)[i]? = (col[i]?).map CleanseText.strip_quotes_row ∧
    (CleanseText.strip_whitespace tok col).length = col.length ∧
    (CleanseText.strip_whitespace tok col)[i]? = (col[i]?).map (CleanseText.strip_whitespace_row tok) ∧
    (TweetParser.count_elements sep col).length = col.length ∧
    (TweetParser.count_elements sep col)[i]? = (col[i]?).map (TweetParser.count_elements_row sep) ∧
    (TweetParser.get_emojis emo col).length = col.length ∧
    (TweetParser.get_emojis emo col)[i]? = (col[i]?).map (TweetParser.get_emojis_row emo) ∧
    (TweetParser.get_emojis_counts emo col).length = col.length ∧
    (TweetParser.get_emojis_counts emo col)[i]? =
      (col[i]?).map (fun s => counter (TweetParser.get_emojis_row emo s)) ∧
    (TweetParser.get_hashtags col).length = col.length ∧
    (TweetParser.get_hashtags col)[i]? = (col[i]?).map TweetParser.get_hashtags_row ∧
    (TweetParser.get_hashtags_joined sep col).length = col.length ∧
    (TweetParser.get_hashtags_joined sep col)[i]? =
      (col[i]?).map (fun s => String.intercalate sep (TweetParser.get_hashtags_row s)) ∧
    (TweetParser.get_mentions col).length = col.length ∧
    (TweetParser.get_mentions col)[i]? = (col[i]?).map TweetParser.get_mentions_row ∧
    (TweetParser.get_mentions_joined sep col).length = col.length ∧
    (TweetParser.get_mentions_joined sep col)[i]? =
      (col[i]?).map (fun s => String.intercalate sep (TweetParser.get_mentions_row s)) ∧
    (TweetParser.get_retweets col).length = col.length ∧
    (TweetParser.get_retweets col)[i]? = (col[i]?).map TweetParser.get_retweets_row ∧
    (TweetParser.has_hashtags flag col).length = col.length ∧
    (TweetParser.has_hashtags flag col)[i]? = (col[i]?).map (TweetParser.has_hashtags_row flag) ∧
    (TweetParser.has_mentions flag col).length = col.length ∧
    (TweetParser.has_mentions flag col)[i]? = (col[i]?).map (TweetParser.has_mentions_row flag) ∧
    (TweetParser.has_retweets flag col).length = col.length ∧
    (TweetParser.has_retweets flag col)[i]? = (col[i]?).map (TweetParser.has_retweets_row flag) ∧
    (TweetParser.strip_hashtags tok col).length = col.length ∧
    (TweetParser.strip_hashtags tok col)[i]? = (col[i]?).map (TweetParser.strip_hashtags_row tok) ∧
    (TweetParser.strip_mentions tok col).length = col.length ∧
    (TweetParser.strip_mentions tok col)[i]? = (col[i]?).map (TweetParser.strip_mentions_row tok) ∧
    (TweetParser.strip_retweets tok col).length = col.length ∧
    (TweetParser.strip_retweets tok col)[i]? = (col[i]?).map (TweetParser.strip_retweets_row tok) := by
  simp only [CleanseText.fix_text, CleanseText.strip_mojibake, CleanseText.get_hyperlinks,
    CleanseText.strip_elipses, CleanseText.strip_encoding, CleanseText.strip_hyperlink,
    CleanseText.strip_newline, CleanseText.strip_punctuation, CleanseText.strip_quotes,
    CleanseText.strip_whitespace, TweetParser.count_elements, TweetParser.get_emojis,
    TweetParser.get_emojis_counts, TweetParser.get_hashtags, TweetParser.get_hashtags_joined,
    TweetParser.get_mentions, TweetParser.get_mentions_joined, TweetParser.get_retweets,
    TweetParser.has_hashtags, TweetParser.has_mentions, TweetParser.has_retweets,
    TweetParser.strip_hashtags, TweetParser.strip_mentions, TweetParser.strip_retweets,
    List.length_map, List.getElem?_map, and_self]

end TweetPandas
